import Mathlib

/-!
Verification of the entry store and compilation/dedup engine of a
journaling application (the `useJournal` hook and the Settings CSV
importer).

Modelling conventions for the shallow embedding:

* A `JournalEntry` mirrors the TypeScript interface: all fields are
  strings, the two optional fields are `Option String`.
* `new Date(s).getTime()` is modelled by an abstract total function
  `g : String → Int` supplied as a parameter (invalid dates producing
  NaN are outside the model).
* JavaScript's `Array.prototype.sort` is stable (ES2019).  Any stable
  sort with a consistent comparator produces the same output sequence,
  so it is modelled by a stable insertion sort `sortBy`.
* Nondeterministic environment inputs (fresh ids from
  `Date.now + Math.random`, `toLocaleString` formatting, `new
  Date(s).toISOString()`) are abstract function parameters.
* The one place where the code can throw (`columns[tagsIdx].match`
  on an `undefined` field) is modelled with `Except Unit`.
-/

namespace Journal

/-- The persisted entity, from the `JournalEntry` interface. -/
structure JournalEntry where
  id : String
  content : String
  date : String
  ticketNumber : Option String := none
  imageUrl : Option String := none
deriving DecidableEq, Repr

/-- Payload of `addEntry`: `Omit<JournalEntry, 'id' | 'date'>`. -/
structure NewEntryPayload where
  content : String
  ticketNumber : Option String := none
  imageUrl : Option String := none
deriving DecidableEq, Repr

/-- Payload of `updateEntry`: `Partial<Omit<JournalEntry, 'id'>>`.
An outer `some` means the key is present in the partial object. -/
structure UpdateEntryPayload where
  content : Option String := none
  date : Option String := none
  ticketNumber : Option (Option String) := none
  imageUrl : Option (Option String) := none
deriving DecidableEq, Repr

/-! ### JavaScript string primitives -/

/-- The `\s` character class (ASCII part), as used by `trim`,
`\s` in regexes, and blank-line tests. -/
def jsWhite (c : Char) : Bool :=
  c == ' ' || c == '\t' || c == '\n' || c == '\r' || c == '\x0b' || c == '\x0c'

/-- `String.prototype.trim` on a character list. -/
def jsTrimList (l : List Char) : List Char :=
  ((l.dropWhile jsWhite).reverse.dropWhile jsWhite).reverse

/-- `String.prototype.trim`. -/
def jsTrim (s : String) : String :=
  String.mk (jsTrimList s.toList)

/-- ASCII `toLowerCase` on one character. -/
def charLower (c : Char) : Char :=
  if 'A' ≤ c ∧ c ≤ 'Z' then Char.ofNat (c.toNat + 32) else c

/-- ASCII `String.prototype.toLowerCase`. -/
def jsLower (s : String) : String :=
  String.mk (s.toList.map charLower)

/-- `a.includes(b)` : substring containment. -/
def includesList (pat : List Char) : List Char → Bool
  | [] => pat.isEmpty
  | c :: rest => pat.isPrefixOf (c :: rest) || includesList pat rest

/-- `a.includes(b)` on strings. -/
def jsIncludes (s pat : String) : Bool :=
  includesList pat.toList s.toList

/-! ### Stable sort (model of `Array.prototype.sort`) -/

/-- Insert `x` into `l`, placing it before the first element `y` with
`le x y`.  With a reflexive-on-ties `le`, the element being inserted
goes before existing equal elements, which combined with `sortBy`'s
right fold gives exactly the stable order. -/
def insertBy (le : JournalEntry → JournalEntry → Bool) (x : JournalEntry) :
    List JournalEntry → List JournalEntry
  | [] => [x]
  | y :: ys => if le x y then x :: y :: ys else y :: insertBy le x ys

/-- Stable insertion sort: the unique stable sort for a total
preorder comparator, hence a faithful model of JS `sort`. -/
def sortBy (le : JournalEntry → JournalEntry → Bool) :
    List JournalEntry → List JournalEntry
  | [] => []
  | x :: xs => insertBy le x (sortBy le xs)

/-- Comparator `(a, b) => time(b) - time(a) <= 0`: date descending. -/
def leD (g : String → Int) (a b : JournalEntry) : Bool :=
  decide (g b.date ≤ g a.date)

/-- Comparator `(a, b) => time(a) - time(b) <= 0`: date ascending. -/
def leA (g : String → Int) (a b : JournalEntry) : Bool :=
  decide (g a.date ≤ g b.date)

/-- `entries.sort((a, b) => new Date(b.date).getTime() - new Date(a.date).getTime())`. -/
def sortD (g : String → Int) (l : List JournalEntry) : List JournalEntry :=
  sortBy (leD g) l

/-- `entries.sort((a, b) => new Date(a.date).getTime() - new Date(b.date).getTime())`. -/
def sortA (g : String → Int) (l : List JournalEntry) : List JournalEntry :=
  sortBy (leA g) l

theorem insertBy_perm (le : JournalEntry → JournalEntry → Bool) (x : JournalEntry) :
    ∀ l : List JournalEntry, (insertBy le x l).Perm (x :: l)
  | [] => List.Perm.refl _
  | y :: ys => by
    unfold insertBy
    by_cases h : le x y = true
    · simp [h]
    · rw [if_neg h]
      exact ((insertBy_perm le x ys).cons y).trans (List.Perm.swap x y ys)

theorem sortBy_perm (le : JournalEntry → JournalEntry → Bool) :
    ∀ l : List JournalEntry, (sortBy le l).Perm l
  | [] => List.Perm.refl _
  | x :: xs => (insertBy_perm le x (sortBy le xs)).trans ((sortBy_perm le xs).cons x)

theorem sortBy_length (le : JournalEntry → JournalEntry → Bool) (l : List JournalEntry) :
    (sortBy le l).length = l.length :=
  (sortBy_perm le l).length_eq

theorem insertBy_pairwise (le : JournalEntry → JournalEntry → Bool)
    (htot : ∀ a b, le a b = true ∨ le b a = true)
    (htrans : ∀ a b c, le a b = true → le b c = true → le a c = true)
    (x : JournalEntry) :
    ∀ l : List JournalEntry, l.Pairwise (fun a b => le a b = true) →
      (insertBy le x l).Pairwise (fun a b => le a b = true)
  | [], _ => by simp [insertBy]
  | y :: ys, hp => by
    unfold insertBy
    by_cases h : le x y = true
    · rw [if_pos h]
      refine List.Pairwise.cons ?_ hp
      intro z hz
      rcases List.mem_cons.mp hz with rfl | hz2
      · exact h
      · exact htrans x y z h (List.rel_of_pairwise_cons hp hz2)
    · rw [if_neg h]
      have hyx : le y x = true := (htot x y).resolve_left h
      refine List.Pairwise.cons ?_ (insertBy_pairwise le htot htrans x ys hp.tail)
      intro z hz
      have hmem := (insertBy_perm le x ys).mem_iff.mp hz
      rcases List.mem_cons.mp hmem with rfl | hz2
      · exact hyx
      · exact List.rel_of_pairwise_cons hp hz2

theorem sortBy_pairwise (le : JournalEntry → JournalEntry → Bool)
    (htot : ∀ a b, le a b = true ∨ le b a = true)
    (htrans : ∀ a b c, le a b = true → le b c = true → le a c = true) :
    ∀ l : List JournalEntry, (sortBy le l).Pairwise (fun a b => le a b = true)
  | [] => List.Pairwise.nil
  | x :: xs => insertBy_pairwise le htot htrans x _ (sortBy_pairwise le htot htrans xs)

theorem leD_total (g : String → Int) : ∀ a b, leD g a b = true ∨ leD g b a = true := by
  intro a b
  simp only [leD, decide_eq_true_eq]
  omega

theorem leD_trans (g : String → Int) :
    ∀ a b c, leD g a b = true → leD g b c = true → leD g a c = true := by
  intro a b c
  simp only [leD, decide_eq_true_eq]
  omega

theorem leA_total (g : String → Int) : ∀ a b, leA g a b = true ∨ leA g b a = true := by
  intro a b
  simp only [leA, decide_eq_true_eq]
  omega

theorem leA_trans (g : String → Int) :
    ∀ a b c, leA g a b = true → leA g b c = true → leA g a c = true := by
  intro a b c
  simp only [leA, decide_eq_true_eq]
  omega

/-- `sortD` output is sorted descending by parsed date. -/
theorem sortD_pairwise (g : String → Int) (l : List JournalEntry) :
    (sortD g l).Pairwise (fun a b => g b.date ≤ g a.date) := by
  have h := sortBy_pairwise (leD g) (leD_total g) (leD_trans g) l
  exact h.imp (fun hab => by simpa [leD] using hab)

/-- `sortA` output is sorted ascending by parsed date. -/
theorem sortA_pairwise (g : String → Int) (l : List JournalEntry) :
    (sortA g l).Pairwise (fun a b => g a.date ≤ g b.date) := by
  have h := sortBy_pairwise (leA g) (leA_total g) (leA_trans g) l
  exact h.imp (fun hab => by simpa [leA] using hab)

/-- Sorting a list that is already sorted returns it unchanged. -/
theorem sortBy_of_pairwise (le : JournalEntry → JournalEntry → Bool) :
    ∀ l : List JournalEntry, l.Pairwise (fun a b => le a b = true) → sortBy le l = l
  | [], _ => rfl
  | x :: xs, hp => by
    unfold sortBy
    rw [sortBy_of_pairwise le xs hp.tail]
    cases xs with
    | nil => rfl
    | cons y ys =>
      unfold insertBy
      rw [if_pos (List.rel_of_pairwise_cons hp (List.mem_cons_self y ys))]

theorem sortD_perm (g : String → Int) (l : List JournalEntry) :
    (sortD g l).Perm l :=
  sortBy_perm (leD g) l

theorem sortA_perm (g : String → Int) (l : List JournalEntry) :
    (sortA g l).Perm l :=
  sortBy_perm (leA g) l

/-- `sortD` is idempotent. -/
theorem sortD_idem (g : String → Int) (l : List JournalEntry) :
    sortD g (sortD g l) = sortD g l :=
  sortBy_of_pairwise (leD g) _ (sortBy_pairwise (leD g) (leD_total g) (leD_trans g) l)

/-- Stability of the descending sort: entries with any fixed parsed
date keep their original relative order. -/
theorem insertBy_leD_filter (g : String → Int) (t : Int) (x : JournalEntry) :
    ∀ l : List JournalEntry,
      (insertBy (leD g) x l).filter (fun e => decide (g e.date = t))
        = if g x.date = t
            then x :: l.filter (fun e => decide (g e.date = t))
            else l.filter (fun e => decide (g e.date = t))
  | [] => by
    by_cases hx : g x.date = t <;> simp [insertBy, List.filter, hx]
  | y :: ys => by
    unfold insertBy
    by_cases h : leD g x y = true
    · by_cases hx : g x.date = t <;> simp [h, List.filter, hx]
    · have hlt : g x.date < g y.date := by
        simp only [leD, decide_eq_true_eq] at h
        omega
      by_cases hx : g x.date = t
      · have hy : ¬ g y.date = t := by omega
        simp [h, List.filter, hx, hy, insertBy_leD_filter g t x ys]
      · by_cases hy : g y.date = t <;>
          simp [h, List.filter, hx, hy, insertBy_leD_filter g t x ys]

theorem sortD_filter_stable (g : String → Int) (t : Int) :
    ∀ l : List JournalEntry,
      (sortD g l).filter (fun e => decide (g e.date = t))
        = l.filter (fun e => decide (g e.date = t))
  | [] => rfl
  | x :: xs => by
    show (insertBy (leD g) x (sortD g xs)).filter _ = _
    rw [insertBy_leD_filter g t x (sortD g xs)]
    by_cases hx : g x.date = t <;>
      simp [hx, List.filter, sortD_filter_stable g t xs]

/-! ### Repository operations (`useJournal.ts`)

The repository state is the `entries` list held in React state.  Fresh
ids (`new Date().toISOString() + Math.random()`) and the creation
timestamp (`new Date().toISOString()`) are parameters. -/

/-- `addEntry`: `if (!payload.content.trim()) return;` then prepend
`{ id, date, ...payload }`. -/
def addEntry (newId newDate : String) (p : NewEntryPayload)
    (s : List JournalEntry) : List JournalEntry :=
  if jsTrim p.content = "" then s
  else { id := newId, date := newDate, content := p.content,
         ticketNumber := p.ticketNumber, imageUrl := p.imageUrl } :: s

/-- `deleteEntry`: `prevEntries.filter(entry => entry.id !== id)`. -/
def deleteEntry (id : String) (s : List JournalEntry) : List JournalEntry :=
  s.filter (fun e => decide (e.id ≠ id))

/-- `{ ...entry, ...payload }`: keys present in the partial override. -/
def applyUpdate (e : JournalEntry) (p : UpdateEntryPayload) : JournalEntry :=
  { e with
    content := p.content.getD e.content,
    date := p.date.getD e.date,
    ticketNumber := p.ticketNumber.getD e.ticketNumber,
    imageUrl := p.imageUrl.getD e.imageUrl }

/-- `updateEntry`: map over entries, merging the payload into the one
matching `id`. -/
def updateEntry (id : String) (p : UpdateEntryPayload)
    (s : List JournalEntry) : List JournalEntry :=
  s.map (fun e => if e.id = id then applyUpdate e p else e)

/-- The dedup signature `` `${e.date}-${e.content}` ``. -/
def sig (e : JournalEntry) : String :=
  e.date ++ "-" ++ e.content

/-- The import filter: drop a candidate whose signature was already
seen (in the existing entries or earlier in the batch), otherwise keep
it and record its signature. -/
def dedupFilter (seen : List String) : List JournalEntry → List JournalEntry
  | [] => []
  | e :: rest =>
      if sig e ∈ seen then dedupFilter seen rest
      else e :: dedupFilter (sig e :: seen) rest

/-- `id: e.id || fresh` — the empty string is the only falsy string,
so an empty id is replaced by a fresh one. -/
def sanitize (f : Nat → String) : Nat → List JournalEntry → List JournalEntry
  | _, [] => []
  | i, e :: rest =>
      (if e.id = "" then { e with id := f i } else e) :: sanitize f (i + 1) rest

/-- `importEntries`: dedup the batch against the existing signatures,
assign ids to id-less survivors, prepend, and sort date-descending. -/
def importEntries (g : String → Int) (f : Nat → String)
    (batch : List JournalEntry) (s : List JournalEntry) : List JournalEntry :=
  sortD g (sanitize f 0 (dedupFilter (s.map sig) batch) ++ s)

/-- One block of the compiled content:
`--- Entry from ${formattedDate} ---\n${entry.content}`.
`toLocaleString` is the abstract `fmt`. -/
def entryBlock (fmt : String → String) (e : JournalEntry) : String :=
  "--- Entry from " ++ fmt e.date ++ " ---\n" ++ e.content

/-- `compileEntriesByTicketNumber`.  The `getLastD` default is never
reached: the guard guarantees at least two matching entries. -/
def compileEntriesByTicketNumber (g : String → Int) (fmt : String → String)
    (newId : String) (t : String) (s : List JournalEntry) : List JournalEntry :=
  let toCompile := s.filter (fun e => e.ticketNumber == some t)
  if toCompile.length < 2 then s
  else
    let asc := sortA g toCompile
    let compiledContent := String.intercalate "\n\n" (asc.map (entryBlock fmt))
    let newest := asc.getLastD { id := "", content := "", date := "" }
    { id := newId, date := newest.date, content := compiledContent,
      ticketNumber := some t, imageUrl := newest.imageUrl }
      :: s.filter (fun e => !(e.ticketNumber == some t))

/-- `sortedEntries`, the reader-visible view returned by the hook. -/
def snapshot (g : String → Int) (s : List JournalEntry) : List JournalEntry :=
  sortD g s

/-! ### CSV adapter (`parseCSV` in the Settings component)

`new Date(dateStr)` / `toISOString` is the abstract `toISO : String →
Option String` (`none` for an invalid date); the `now` fallback and
fresh row ids are parameters. -/

/-- `text.split(/\r?\n/)`: `\r\n` or `\n` separates, a lone `\r` does not. -/
def splitLinesAux : List Char → List Char → List String
  | [], cur => [String.mk cur.reverse]
  | '\r' :: '\n' :: rest, cur => String.mk cur.reverse :: splitLinesAux rest []
  | '\n' :: rest, cur => String.mk cur.reverse :: splitLinesAux rest []
  | c :: rest, cur => splitLinesAux rest (c :: cur)

/-- `text.split(/\r?\n/)`. -/
def splitLines (text : String) : List String :=
  splitLinesAux text.toList []

/-- The character loop of `parseLine`: split on unquoted commas,
toggle quoting on `"`, turn `""` inside quotes into a literal quote. -/
def parseLineAux : List Char → List Char → Bool → List String
  | [], cur, _ => [String.mk cur.reverse]
  | c :: rest, cur, inQ =>
      if c == '"' then
        if inQ then
          match rest with
          | c2 :: rest2 =>
              if c2 == '"' then parseLineAux rest2 ('"' :: cur) true
              else if c2 == ',' then String.mk cur.reverse :: parseLineAux rest2 [] false
              else parseLineAux rest2 (c2 :: cur) false
          | [] => [String.mk cur.reverse]
        else parseLineAux rest cur true
      else if c == ',' && !inQ then
        String.mk cur.reverse :: parseLineAux rest [] false
      else parseLineAux rest (c :: cur) inQ

/-- The quote-aware field splitter `parseLine`. -/
def parseLine (line : String) : List String :=
  parseLineAux line.toList [] false

/-- Header normalisation: `h.trim().toLowerCase().replace(/['"]/g, '')`. -/
def headerNorm (h : String) : String :=
  String.mk (((jsTrimList h.toList).map charLower).filter
    (fun c => !(c == '\'' || c == '"')))

/-- Predicate for the date column: header contains "date" or "created". -/
def dateHeaderP (h : String) : Bool :=
  jsIncludes h "date" || jsIncludes h "created"

/-- Predicate for the content column: exact header match. -/
def textHeaderP (h : String) : Bool :=
  h == "entry_text" || h == "text" || h == "content" || h == "note"

/-- Predicate for the tags column: header contains "tags" or "label". -/
def tagsHeaderP (h : String) : Bool :=
  jsIncludes h "tags" || jsIncludes h "label"

/-- The `[\d\s]` character class. -/
def classDS (c : Char) : Bool :=
  c.isDigit || jsWhite c

/-- Drop trailing whitespace (used to find the last digit of a
digit/space run). -/
def dropTrailingWS (l : List Char) : List Char :=
  (l.reverse.dropWhile jsWhite).reverse

/-- Match of `/\d[\d\s]{5,}\d/` anchored at the head of `l`.  The
greedy quantifier with the final `\d` matches exactly the maximal
digit-or-space run stripped of trailing spaces, provided it starts
with a digit and spans at least 7 characters. -/
def ticketRunAt : List Char → Option (List Char)
  | [] => none
  | c :: rest =>
      if c.isDigit then
        let m := dropTrailingWS ((c :: rest).takeWhile classDS)
        if 7 ≤ m.length then some m else none
      else none

/-- Leftmost match of `/\d[\d\s]{5,}\d/` (the tags pattern),
returning `match[0]`. -/
def ticketRunFind : List Char → Option (List Char)
  | [] => none
  | c :: rest =>
      match ticketRunAt (c :: rest) with
      | some m => some m
      | none => ticketRunFind rest

/-- Backtracking tail of `/Ticket:?\s*(#?[\d\s]+)/i` after the marker:
try consuming `k` whitespace chars for `\s*` (greedy, so from the
maximal run downwards), then an optional `#`, then a nonempty greedy
`[\d\s]+` run.  Returns how many characters were matched. -/
def ticketMarkerTryK (rest2 : List Char) (k : Nat) : Option Nat :=
  let after := rest2.drop k
  let (extra, after2) :=
    match after with
    | '#' :: t => (1, t)
    | _ => (0, after)
  let run := after2.takeWhile classDS
  if run.length ≠ 0 then some (k + extra + run.length) else none

/-- Iterate the backtracking attempts from `k` down to `0`. -/
def ticketMarkerTail (rest2 : List Char) : Nat → Option Nat
  | 0 => ticketMarkerTryK rest2 0
  | k + 1 =>
      match ticketMarkerTryK rest2 (k + 1) with
      | some n => some n
      | none => ticketMarkerTail rest2 k

/-- Match of `/Ticket:?\s*(#?[\d\s]+)/i` anchored at the head of `l`,
returning `match[0]`. -/
def ticketMarkerAt (l : List Char) : Option (List Char) :=
  if (l.take 6).map charLower = "ticket".toList then
    let rest := l.drop 6
    let (consumed, rest2) :=
      match rest with
      | ':' :: t => (7, t)
      | _ => (6, rest)
    let w := (rest2.takeWhile jsWhite).length
    match ticketMarkerTail rest2 w with
    | some n => some (l.take (consumed + n))
    | none => none
  else none

/-- Leftmost match of the content pattern. -/
def ticketMarkerFind : List Char → Option (List Char)
  | [] => none
  | c :: rest =>
      match ticketMarkerAt (c :: rest) with
      | some m => some m
      | none => ticketMarkerFind rest

/-- `.replace(/[^\d\s]/g, '')`: keep only digits and whitespace. -/
def stripNonDigitSpace (s : String) : String :=
  String.mk (s.toList.filter classDS)

/-- `tags.match(/\d[\d\s]{5,}\d/) || content.match(/Ticket:?\s*(#?[\d\s]+)/i)`,
then `match[0].replace(/[^\d\s]/g, '').trim()`. -/
def extractTicket (tags content : String) : Option String :=
  match ticketRunFind tags.toList with
  | some m => some (jsTrim (stripNonDigitSpace (String.mk m)))
  | none =>
      match ticketMarkerFind content.toList with
      | some m => some (jsTrim (stripNonDigitSpace (String.mk m)))
      | none => none

/-- `.replace(/^"|"$/g, '')`: strip one leading and one trailing quote. -/
def stripEdgeQuotes (l : List Char) : List Char :=
  let l1 :=
    match l with
    | '"' :: t => t
    | _ => l
  match l1.reverse with
  | '"' :: t => t.reverse
  | _ => l1

/-- `.replace(/""/g, '"')`: collapse doubled quotes left to right. -/
def doubleQuoteCollapse : List Char → List Char
  | [] => []
  | '"' :: '"' :: rest => '"' :: doubleQuoteCollapse rest
  | c :: rest => c :: doubleQuoteCollapse rest

/-- `content.replace(/^"|"$/g, '').replace(/""/g, '"')`. -/
def cleanContent (s : String) : String :=
  String.mk (doubleQuoteCollapse (stripEdgeQuotes s.toList))

/-- Build the entry pushed for one data row.  The ticket regexes see
the raw column value; the quote cleanup applies only to the stored
content. -/
def mkRowEntry (toISO : String → Option String) (now rowId dateStr content tags : String) :
    JournalEntry :=
  { id := rowId,
    date := (toISO dateStr).getD now,
    content := cleanContent content,
    ticketNumber := extractTicket tags content }

/-- Process one data row.  `Except.error` models the uncaught
`TypeError` thrown by `columns[tagsIdx].match` when the row is long
enough for the date/text indices but too short for the tags index
(`columns[tagsIdx]` is `undefined`). -/
def rowEntry (toISO : String → Option String) (now rowId : String)
    (di ti : Nat) (tagsIdx : Option Nat) (line : String) :
    Except Unit (Option JournalEntry) :=
  if jsTrim line = "" then Except.ok none
  else
    let columns := parseLine line
    if columns.length ≤ max di ti then Except.ok none
    else
      let dateStr := columns.getD di ""
      let content := columns.getD ti ""
      match tagsIdx with
      | some tgi =>
          if tgi < columns.length then
            Except.ok (some (mkRowEntry toISO now rowId dateStr content (columns.getD tgi "")))
          else Except.error ()
      | none =>
          Except.ok (some (mkRowEntry toISO now rowId dateStr content ""))

/-- The data-row loop of `parseCSV`. -/
def parseRows (toISO : String → Option String) (now : String) (f : Nat → String)
    (di ti : Nat) (tagsIdx : Option Nat) :
    Nat → List String → Except Unit (List JournalEntry)
  | _, [] => Except.ok []
  | i, line :: rest =>
      match rowEntry toISO now (f i) di ti tagsIdx line with
      | Except.error e => Except.error e
      | Except.ok none => parseRows toISO now f di ti tagsIdx (i + 1) rest
      | Except.ok (some entry) =>
          match parseRows toISO now f di ti tagsIdx (i + 1) rest with
          | Except.error e => Except.error e
          | Except.ok es => Except.ok (entry :: es)

/-- `parseCSV`. -/
def parseCSV (toISO : String → Option String) (now : String) (f : Nat → String)
    (text : String) : Except Unit (List JournalEntry) :=
  let lines := splitLines text
  if lines.length < 2 then Except.ok []
  else
    match lines with
    | [] => Except.ok []
    | header :: dataLines =>
        let headers := (parseLine header).map headerNorm
        match headers.findIdx? dateHeaderP, headers.findIdx? textHeaderP with
        | some di, some ti =>
            parseRows toISO now f di ti (headers.findIdx? tagsHeaderP) 1 dataLines
        | _, _ => Except.ok []

/-- One reader-exposed mutation of the repository. -/
inductive RepoOp where
  | addOp (newId newDate : String) (p : NewEntryPayload)
  | updateOp (id : String) (p : UpdateEntryPayload)
  | deleteOp (id : String)
  | importOp (f : Nat → String) (batch : List JournalEntry)
  | compileOp (fmt : String → String) (newId : String) (t : String)

/-- Apply one mutation to the repository state. -/
def applyOp (g : String → Int) : RepoOp → List JournalEntry → List JournalEntry
  | RepoOp.addOp newId newDate p, s => addEntry newId newDate p s
  | RepoOp.updateOp id p, s => updateEntry id p s
  | RepoOp.deleteOp id, s => deleteEntry id s
  | RepoOp.importOp f batch, s => importEntries g f batch s
  | RepoOp.compileOp fmt newId t, s => compileEntriesByTicketNumber g fmt newId t s

/-- Apply a sequence of mutations, first element first. -/
def applyOps (g : String → Int) (ops : List RepoOp) (s : List JournalEntry) :
    List JournalEntry :=
  ops.foldl (fun st op => applyOp g op st) s

/-! ### Lemmas about the import dedup filter -/

/-- A kept candidate's signature was not among the signatures already
seen when the filter started. -/
theorem dedupFilter_not_seen :
    ∀ (batch : List JournalEntry) (seen : List String) (c : JournalEntry),
      c ∈ dedupFilter seen batch → sig c ∉ seen
  | [], _, _, hc => absurd hc (by simp [dedupFilter])
  | e :: rest, seen, c, hc => by
    unfold dedupFilter at hc
    by_cases h : sig e ∈ seen
    · rw [if_pos h] at hc
      exact dedupFilter_not_seen rest seen c hc
    · rw [if_neg h] at hc
      rcases List.mem_cons.mp hc with rfl | hc2
      · exact h
      · have := dedupFilter_not_seen rest (sig e :: seen) c hc2
        exact fun hmem => this (List.mem_cons_of_mem _ hmem)

/-- No two kept candidates share a signature. -/
theorem dedupFilter_pairwise :
    ∀ (batch : List JournalEntry) (seen : List String),
      (dedupFilter seen batch).Pairwise (fun a b => sig a ≠ sig b)
  | [], _ => by simp [dedupFilter]
  | e :: rest, seen => by
    unfold dedupFilter
    by_cases h : sig e ∈ seen
    · rw [if_pos h]
      exact dedupFilter_pairwise rest seen
    · rw [if_neg h]
      refine List.Pairwise.cons ?_ (dedupFilter_pairwise rest (sig e :: seen))
      intro b hb heq
      exact dedupFilter_not_seen rest (sig e :: seen) b hb (heq ▸ List.mem_cons_self _ _)

/-- Every candidate's signature is absorbed: it was already seen, or a
kept candidate carries it. -/
theorem dedupFilter_absorb :
    ∀ (batch : List JournalEntry) (seen : List String) (c : JournalEntry),
      c ∈ batch → sig c ∈ seen ∨ sig c ∈ (dedupFilter seen batch).map sig
  | [], _, _, hc => absurd hc (by simp)
  | e :: rest, seen, c, hc => by
    unfold dedupFilter
    by_cases h : sig e ∈ seen
    · rw [if_pos h]
      rcases List.mem_cons.mp hc with rfl | hc2
      · exact Or.inl h
      · exact dedupFilter_absorb rest seen c hc2
    · rw [if_neg h]
      rcases List.mem_cons.mp hc with rfl | hc2
      · exact Or.inr (by simp)
      · rcases dedupFilter_absorb rest (sig e :: seen) c hc2 with hs | hk
        · rcases List.mem_cons.mp hs with heq | hs2
          · exact Or.inr (by simp [heq])
          · exact Or.inl hs2
        · exact Or.inr (by simp [List.mem_cons_of_mem, hk])

/-- Once every candidate signature is known, the whole batch is dropped. -/
theorem dedupFilter_all_seen :
    ∀ (batch : List JournalEntry) (seen : List String),
      (∀ c ∈ batch, sig c ∈ seen) → dedupFilter seen batch = []
  | [], _, _ => rfl
  | e :: rest, seen, h => by
    unfold dedupFilter
    rw [if_pos (h e (List.mem_cons_self _ _))]
    exact dedupFilter_all_seen rest seen (fun c hc => h c (List.mem_cons_of_mem _ hc))

/-- `sanitize` only rewrites ids, so signatures are unchanged. -/
theorem sanitize_map_sig (f : Nat → String) :
    ∀ (i : Nat) (l : List JournalEntry), (sanitize f i l).map sig = l.map sig
  | _, [] => rfl
  | i, e :: rest => by
    unfold sanitize
    by_cases h : e.id = "" <;>
      simp [h, sig, sanitize_map_sig f (i + 1) rest]

/-! ### Claim theorems -/

/-- C1: for every sequence of repository mutations (add, update,
delete, import, compile) starting from any state, the reader-visible
snapshot is sorted descending by parsed date, and entries whose dates
compare equal keep their relative order from the working set (stable
sort). -/
theorem snapshot_sorted_and_stable (g : String → Int) (ops : List RepoOp)
    (s0 : List JournalEntry) :
    (snapshot g (applyOps g ops s0)).Pairwise (fun a b => g b.date ≤ g a.date) ∧
    ∀ t : Int,
      (snapshot g (applyOps g ops s0)).filter (fun e => decide (g e.date = t))
        = (applyOps g ops s0).filter (fun e => decide (g e.date = t)) :=
  ⟨sortD_pairwise g _, fun t => sortD_filter_stable g t _⟩

/-- C4 counterexample: a payload with whitespace-only content and an
image present is rejected (`addEntry` is a no-op), contradicting the
claim that such an entry is still created. -/
theorem add_image_only_rejected :
    addEntry "new-id" "2024-06-01T00:00:00.000Z"
      { content := "   ", imageUrl := some "data:image/png;base64,AAAA" } [] = [] := by
  decide

/-- C4 amended: `addEntry` is a no-op exactly when the trimmed content
is empty, regardless of whether an image is present. -/
theorem add_noop_iff_blank_content (newId newDate : String) (p : NewEntryPayload)
    (s : List JournalEntry) :
    addEntry newId newDate p s = s ↔ jsTrim p.content = "" := by
  unfold addEntry
  by_cases h : jsTrim p.content = ""
  · simp [h]
  · rw [if_neg h]
    constructor
    · intro heq
      have hlen := congrArg List.length heq
      simp at hlen
    · intro hc
      exact absurd hc h

/-- C8: compiling a ticket number held by at most one entry leaves the
repository state unchanged (no entry is edited, added or removed, so
nothing new is persisted) and raises no error. -/
theorem compile_noop_of_lt_two (g : String → Int) (fmt : String → String)
    (newId t : String) (s : List JournalEntry)
    (h : (s.filter (fun e => e.ticketNumber == some t)).length ≤ 1) :
    compileEntriesByTicketNumber g fmt newId t s = s := by
  unfold compileEntriesByTicketNumber
  rw [if_pos (by omega)]

/-- C8 witness. -/
theorem compile_noop_of_lt_two_witness :
    compileEntriesByTicketNumber (fun _ => 0) (fun d => d) "fresh" "777"
      [{ id := "1", content := "only one", date := "2024-01-01",
         ticketNumber := some "777" }]
      = [{ id := "1", content := "only one", date := "2024-01-01",
           ticketNumber := some "777" }] :=
  compile_noop_of_lt_two (fun _ => 0) (fun d => d) "fresh" "777" _ (by decide)

/-- C9: updating an existing entry's content to the empty string
succeeds and the next snapshot shows that entry with empty content,
while an update addressed to an id no entry bears leaves the state
unchanged. -/
theorem update_empty_content_and_missing_id (g : String → Int) (i j : String)
    (p' : UpdateEntryPayload) (s : List JournalEntry) (e : JournalEntry)
    (he : e ∈ s) (hid : e.id = i) (hj : ∀ x ∈ s, x.id ≠ j) :
    ({ e with content := "" } ∈
        snapshot g (updateEntry i { content := some "" } s)) ∧
    updateEntry j p' s = s := by
  constructor
  · have hmem : { e with content := "" } ∈ updateEntry i { content := some "" } s := by
      unfold updateEntry
      rw [List.mem_map]
      refine ⟨e, he, ?_⟩
      rw [if_pos hid]
      rfl
    exact (sortD_perm g _).mem_iff.mpr hmem
  · unfold updateEntry
    have : ∀ x ∈ s, (if x.id = j then applyUpdate x p' else x) = id x := by
      intro x hx
      rw [if_neg (hj x hx)]
      rfl
    rw [List.map_congr_left this, List.map_id]

/-- C9 witness. -/
theorem update_empty_content_and_missing_id_witness :
    ({ id := "a", content := "", date := "2024-03-01" } ∈
        snapshot (fun _ => 0)
          (updateEntry "a" { content := some "" }
            [{ id := "a", content := "hello", date := "2024-03-01" }])) ∧
    updateEntry "zzz" { content := some "boo" }
        [{ id := "a", content := "hello", date := "2024-03-01" }]
      = [{ id := "a", content := "hello", date := "2024-03-01" }] :=
  update_empty_content_and_missing_id (fun _ => 0) "a" "zzz"
    { content := some "boo" }
    [{ id := "a", content := "hello", date := "2024-03-01" }]
    { id := "a", content := "hello", date := "2024-03-01" }
    (by decide) (by decide) (by decide)

/-- C10: import never edits or removes an existing entry — every entry
of the previous state keeps at least its multiplicity, all fields
intact, in the imported state. -/
theorem import_preserves_existing_entries (g : String → Int) (f : Nat → String)
    (batch s : List JournalEntry) (e : JournalEntry) :
    s.count e ≤ (importEntries g f batch s).count e ∧
    (importEntries g f batch s).Perm
      (sanitize f 0 (dedupFilter (s.map sig) batch) ++ s) := by
  constructor
  · unfold importEntries
    rw [(sortD_perm g _).count_eq e, List.count_append]
    omega
  · exact sortD_perm g _

/-- C3: importing the same batch twice gives exactly the state of
importing it once — the second import's candidates are all classified
as duplicates by signature and absorbed, and re-sorting the already
sorted state changes nothing (so count and multiset agree a fortiori). -/
theorem import_idempotent (g : String → Int) (f1 f2 : Nat → String)
    (batch s : List JournalEntry) :
    importEntries g f2 batch (importEntries g f1 batch s)
      = importEntries g f1 batch s := by
  set S1 := importEntries g f1 batch s with hS1
  have habs : ∀ c ∈ batch, sig c ∈ S1.map sig := by
    intro c hc
    rcases dedupFilter_absorb batch (s.map sig) c hc with hs | hk
    · rcases List.mem_map.mp hs with ⟨e, hes, heq⟩
      have heS1 : e ∈ S1 := by
        rw [hS1]
        unfold importEntries
        exact (sortD_perm g _).mem_iff.mpr (List.mem_append_right _ hes)
      exact heq ▸ List.mem_map_of_mem sig heS1
    · have hk2 : sig c ∈ (sanitize f1 0 (dedupFilter (s.map sig) batch)).map sig := by
        rw [sanitize_map_sig]
        exact hk
      rcases List.mem_map.mp hk2 with ⟨a, ha, haeq⟩
      have haS1 : a ∈ S1 := by
        rw [hS1]
        unfold importEntries
        exact (sortD_perm g _).mem_iff.mpr (List.mem_append_left _ ha)
      exact haeq ▸ List.mem_map_of_mem sig haS1
  have hdd : dedupFilter (S1.map sig) batch = [] :=
    dedupFilter_all_seen batch _ habs
  show importEntries g f2 batch S1 = S1
  unfold importEntries
  rw [hdd]
  show sortD g (sanitize f2 0 [] ++ S1) = S1
  rw [show sanitize f2 0 ([] : List JournalEntry) = [] from rfl, List.nil_append]
  rw [hS1]
  unfold importEntries
  exact sortD_idem g _

/-- C5 counterexample: the dedup key is the concatenation
`date ++ "-" ++ content`, so a candidate whose date and content BOTH
differ from an existing entry's is still collapsed when the
concatenations coincide: candidate (date `2024-01`, content `x`)
is absorbed by existing (date `2024`, content `01-x`). -/
theorem import_collapses_distinct_pairs :
    importEntries (fun _ => 0) (fun _ => "fresh")
      [{ id := "c", content := "x", date := "2024-01" }]
      [{ id := "e", content := "01-x", date := "2024" }]
      = [{ id := "e", content := "01-x", date := "2024" }] ∧
    ("2024-01" : String) ≠ "2024" ∧ ("x" : String) ≠ "01-x" := by
  refine ⟨by decide, by decide, by decide⟩

/-- C5 amended: during import a candidate is dropped exactly when its
signature string `date ++ "-" ++ content` was already seen — matching
both fields exactly implies a duplicate, but distinct (date, content)
pairs whose concatenated signatures coincide are also collapsed; two
candidates with distinct signatures are never collapsed. -/
theorem import_dedup_by_signature (g : String → Int) (f : Nat → String)
    (s batch : List JournalEntry) :
    importEntries g f batch s
      = sortD g (sanitize f 0 (dedupFilter (s.map sig) batch) ++ s) ∧
    (∀ c ∈ dedupFilter (s.map sig) batch, ∀ e ∈ s, sig c ≠ sig e) ∧
    (dedupFilter (s.map sig) batch).Pairwise (fun a b => sig a ≠ sig b) ∧
    (∀ c ∈ batch,
      (∃ e ∈ s, sig e = sig c) ∨ sig c ∈ (dedupFilter (s.map sig) batch).map sig) := by
  refine ⟨rfl, ?_, dedupFilter_pairwise batch _, ?_⟩
  · intro c hc e hes heq
    exact dedupFilter_not_seen batch _ c hc (heq ▸ List.mem_map_of_mem sig hes)
  · intro c hc
    rcases dedupFilter_absorb batch (s.map sig) c hc with hs | hk
    · rcases List.mem_map.mp hs with ⟨e, hes, heq⟩
      exact Or.inl ⟨e, hes, heq⟩
    · exact Or.inr hk

/-- C5 witness: a surviving candidate's signature differs from every
existing signature. -/
theorem import_dedup_by_signature_witness :
    sig { id := "c", content := "b", date := "d2" }
      ≠ sig { id := "e", content := "a", date := "d1" } :=
  (import_dedup_by_signature (fun _ => 0) (fun _ => "f")
      [{ id := "e", content := "a", date := "d1" }]
      [{ id := "c", content := "b", date := "d2" }]).2.1
    { id := "c", content := "b", date := "d2" } (by decide)
    { id := "e", content := "a", date := "d1" } (by decide)

/-- The last element (with default) of a nonempty list is a member. -/
theorem getLastD_mem :
    ∀ (l : List JournalEntry) (d : JournalEntry), l ≠ [] → l.getLastD d ∈ l
  | [], _, h => absurd rfl h
  | [x], d, _ => by
      rw [List.getLastD_cons]
      exact List.mem_singleton_self x
  | x :: y :: rest, d, _ => by
      rw [List.getLastD_cons]
      exact List.mem_cons_of_mem x (getLastD_mem (y :: rest) x (by simp))

/-- In an ascending-sorted list, every element's key is at most the
last element's key. -/
theorem pairwise_le_getLastD (g : String → Int) :
    ∀ (l : List JournalEntry) (d : JournalEntry),
      l.Pairwise (fun a b => g a.date ≤ g b.date) →
      ∀ e ∈ l, g e.date ≤ g (l.getLastD d).date
  | [], _, _, e, he => absurd he (by simp)
  | [x], d, _, e, he => by
      rw [List.getLastD_cons]
      rw [List.mem_singleton.mp he]
      simp [List.getLastD]
  | x :: y :: rest, d, hp, e, he => by
      rw [List.getLastD_cons]
      rcases List.mem_cons.mp he with rfl | he2
      · exact List.rel_of_pairwise_cons hp (getLastD_mem (y :: rest) e (by simp))
      · exact pairwise_le_getLastD g (y :: rest) x hp.tail e he2

/-- C2: compiling a ticket number shared by N ≥ 2 entries yields a
state headed by one new entry with the given fresh id, the shared
ticket number, the date and image of a latest-dated absorbed entry,
and a content rendering every absorbed entry in ascending
chronological order; the entry count becomes `originalCount - N + 1`. -/
theorem compile_merges_ticket_entries (g : String → Int) (fmt : String → String)
    (newId t : String) (s : List JournalEntry)
    (h2 : 2 ≤ (s.filter (fun e => e.ticketNumber == some t)).length) :
    ∃ src ∈ s.filter (fun e => e.ticketNumber == some t),
      (∀ e ∈ s.filter (fun e => e.ticketNumber == some t), g e.date ≤ g src.date) ∧
      compileEntriesByTicketNumber g fmt newId t s
        = { id := newId, date := src.date,
            content := String.intercalate "\n\n"
              ((sortA g (s.filter (fun e => e.ticketNumber == some t))).map
                (entryBlock fmt)),
            ticketNumber := some t, imageUrl := src.imageUrl }
          :: s.filter (fun e => !(e.ticketNumber == some t)) ∧
      (sortA g (s.filter (fun e => e.ticketNumber == some t))).Perm
        (s.filter (fun e => e.ticketNumber == some t)) ∧
      (sortA g (s.filter (fun e => e.ticketNumber == some t))).Pairwise
        (fun a b => g a.date ≤ g b.date) ∧
      (compileEntriesByTicketNumber g fmt newId t s).length
        = s.length - (s.filter (fun e => e.ticketNumber == some t)).length + 1 := by
  have hlenA : (sortA g (s.filter (fun e => e.ticketNumber == some t))).length
      = (s.filter (fun e => e.ticketNumber == some t)).length :=
    sortBy_length _ _
  have hne : sortA g (s.filter (fun e => e.ticketNumber == some t)) ≠ [] := by
    intro h0
    rw [h0] at hlenA
    simp at hlenA
    omega
  have heq : compileEntriesByTicketNumber g fmt newId t s
      = { id := newId,
          date := ((sortA g (s.filter (fun e => e.ticketNumber == some t))).getLastD
            { id := "", content := "", date := "" }).date,
          content := String.intercalate "\n\n"
            ((sortA g (s.filter (fun e => e.ticketNumber == some t))).map
              (entryBlock fmt)),
          ticketNumber := some t,
          imageUrl := ((sortA g (s.filter (fun e => e.ticketNumber == some t))).getLastD
            { id := "", content := "", date := "" }).imageUrl }
        :: s.filter (fun e => !(e.ticketNumber == some t)) := by
    unfold compileEntriesByTicketNumber
    simp only []
    rw [if_neg (by omega)]
  refine ⟨(sortA g (s.filter (fun e => e.ticketNumber == some t))).getLastD
    { id := "", content := "", date := "" }, ?_, ?_, heq, sortA_perm g _,
    sortA_pairwise g _, ?_⟩
  · exact (sortA_perm g _).mem_iff.mp (getLastD_mem _ _ hne)
  · intro e heF
    exact pairwise_le_getLastD g _ _ (sortA_pairwise g _) e
      ((sortA_perm g _).mem_iff.mpr heF)
  · have hsplit := List.length_eq_length_filter_add
      (l := s) (fun e => e.ticketNumber == some t)
    rw [heq]
    simp only [List.length_cons]
    omega

/-- A concrete two-entry repository sharing ticket `7`, used to
witness the compilation theorem. -/
def repoW : List JournalEntry :=
  [{ id := "1", content := "first", date := "d1", ticketNumber := some "7" },
   { id := "2", content := "second", date := "d2", ticketNumber := some "7" }]

/-- A concrete date-parsing function for the witness: `d2` is later
than every other date. -/
def gW : String → Int :=
  fun d => if d = "d2" then 2 else 1

/-- C2 witness. -/
theorem compile_merges_ticket_entries_witness :
    2 ≤ (repoW.filter (fun e => e.ticketNumber == some "7")).length ∧
    (∃ src ∈ repoW.filter (fun e => e.ticketNumber == some "7"),
      (∀ e ∈ repoW.filter (fun e => e.ticketNumber == some "7"),
        gW e.date ≤ gW src.date) ∧
      compileEntriesByTicketNumber gW (fun d => d) "fresh" "7" repoW
        = { id := "fresh", date := src.date,
            content := String.intercalate "\n\n"
              ((sortA gW (repoW.filter (fun e => e.ticketNumber == some "7"))).map
                (entryBlock (fun d => d))),
            ticketNumber := some "7", imageUrl := src.imageUrl }
          :: repoW.filter (fun e => !(e.ticketNumber == some "7")) ∧
      (sortA gW (repoW.filter (fun e => e.ticketNumber == some "7"))).Perm
        (repoW.filter (fun e => e.ticketNumber == some "7")) ∧
      (sortA gW (repoW.filter (fun e => e.ticketNumber == some "7"))).Pairwise
        (fun a b => gW a.date ≤ gW b.date) ∧
      (compileEntriesByTicketNumber gW (fun d => d) "fresh" "7" repoW).length
        = repoW.length
          - (repoW.filter (fun e => e.ticketNumber == some "7")).length + 1) :=
  ⟨by decide,
   compile_merges_ticket_entries gW (fun d => d) "fresh" "7" repoW (by decide)⟩

/-- C6 counterexample: parsing the CSV
`date,content,tags` / `2024-01-01,"Fixed, it",12 345 678` yields a
ticket number of `"12 345 678"` — the replace only strips characters
that are neither digits nor whitespace, so the internal spaces
survive, contradicting the claimed `"12345678"`. -/
theorem parseCSV_ticket_not_spaceless :
    parseCSV (fun s => if s = "2024-01-01" then some "2024-01-01T00:00:00.000Z" else none)
      "2024-06-01T00:00:00.000Z" (fun n => "row-" ++ toString n)
      "date,content,tags\n2024-01-01,\"Fixed, it\",12 345 678"
      = Except.ok [{ id := "row-1", content := "Fixed, it",
                     date := "2024-01-01T00:00:00.000Z",
                     ticketNumber := some "12 345 678" }] ∧
    (some "12 345 678" : Option String) ≠ some "12345678" :=
  ⟨rfl, by decide⟩

/-- C6 amended: the CSV row parses to one entry with content
`"Fixed, it"`, ticket number `"12 345 678"` (non-digit/non-space
characters stripped, surrounding whitespace trimmed, internal spaces
kept) and the date produced by ISO-normalising `2024-01-01`. -/
theorem parseCSV_roundtrip_spaced_ticket (toISO : String → Option String)
    (now : String) (f : Nat → String) (d : String)
    (h : toISO "2024-01-01" = some d) :
    parseCSV toISO now f "date,content,tags\n2024-01-01,\"Fixed, it\",12 345 678"
      = Except.ok [{ id := f 1, content := "Fixed, it", date := d,
                     ticketNumber := some "12 345 678" }] := by
  have base : parseCSV toISO now f
      "date,content,tags\n2024-01-01,\"Fixed, it\",12 345 678"
      = Except.ok [{ id := f 1, content := "Fixed, it",
                     date := (toISO "2024-01-01").getD now,
                     ticketNumber := some "12 345 678" }] := rfl
  rw [base, h]
  rfl

/-- C6 witness. -/
theorem parseCSV_roundtrip_spaced_ticket_witness :
    parseCSV (fun s => if s = "2024-01-01" then some "2024-01-01T00:00:00.000Z" else none)
      "NOW" (fun n => "row-" ++ toString n)
      "date,content,tags\n2024-01-01,\"Fixed, it\",12 345 678"
      = Except.ok [{ id := "row-1", content := "Fixed, it",
                     date := "2024-01-01T00:00:00.000Z",
                     ticketNumber := some "12 345 678" }] :=
  parseCSV_roundtrip_spaced_ticket
    (fun s => if s = "2024-01-01" then some "2024-01-01T00:00:00.000Z" else none)
    "NOW" (fun n => "row-" ++ toString n) "2024-01-01T00:00:00.000Z" (by decide)

/-- C7: contrary to the claim, `parseCSV` is not total row-locally.
A data row that is long enough for the date/content indices but too
short for the tags index makes the code read `columns[tagsIdx]` as
`undefined` and call `.match` on it, throwing a `TypeError` that
aborts the whole batch (modelled as `Except.error`); only a row
shorter than the date/content indices is skipped as claimed. -/
theorem parseCSV_short_tags_row_throws :
    parseCSV (fun _ => none) "NOW" (fun n => "row-" ++ toString n)
      "date,content,tags\n2024-01-01,hello" = Except.error () ∧
    parseCSV (fun _ => none) "NOW" (fun n => "row-" ++ toString n)
      "date,content,tags\n2024-01-01" = Except.ok [] :=
  ⟨rfl, rfl⟩

end Journal
